import Mathlib

/-!
Verification of the PR state machine of the ehr-utils-project-status
repository (src/pr_state_machine.py and src/project_status.py).

Times are modelled as integers (seconds); `datetime` values become `Int`
timestamps and `timedelta` values become `Int` durations.  The
`defaultdict(lambda: ReviewerState.NONE)` reviewer map is modelled as an
association list with explicit operations mirroring Python semantics:
reading a missing key inserts it with the default (auto-vivification),
while `del` of a missing key raises `KeyError`.

Python exceptions (`KeyError` from `del`, `UnboundLocalError` from reading
the never-initialized local `new_state`) are modelled with `Except`: the
`error` payload carries the machine as mutated up to the point of the
raise, since field mutations made before an exception persist in Python.
-/

namespace ProjectStatus

/-- `ReviewerState` enum from src/pr_state_machine.py. -/
inductive ReviewerState where
  | NONE
  | REVIEW_REQUESTED
  | REQUESTED_CHANGES
  | APPROVED
  | REVIEW_REQUESTED_POST_APPROVAL
deriving Repr, DecidableEq

/-- `PrState` enum from src/pr_state_machine.py. -/
inductive PrState where
  | WAITING
  | UNDER_DEVELOPMENT
  | UNDER_REVIEW
  | APPROVED
  | MERGED
  | CLOSED
deriving Repr, DecidableEq

/-- Timeline event variants from src/github_client.py.  `created_at` is the
timestamp; `Review` carries the reviewer login and the review state string. -/
inductive Event where
  | created (created_at : Int)
  | previousPhaseApproved (created_at : Int)
  | reviewRequested (created_at : Int) (reviewer : String)
  | reviewRequestRemoved (created_at : Int) (reviewer : String)
  | reviewDismissed (created_at : Int) (reviewer : String)
  | review (created_at : Int) (reviewer : String) (reviewState : String)
  | merge (created_at : Int)
  | closedEvent (created_at : Int)
deriving Repr, DecidableEq

/-- The `created_at` timestamp of an event. -/
def Event.created_at : Event → Int
  | .created t => t
  | .previousPhaseApproved t => t
  | .reviewRequested t _ => t
  | .reviewRequestRemoved t _ => t
  | .reviewDismissed t _ => t
  | .review t _ _ => t
  | .merge t => t
  | .closedEvent t => t

/-- The reviewer map: insertion-ordered association list standing for the
Python `defaultdict(lambda: ReviewerState.NONE)`. -/
abbrev ReviewerMap := List (String × ReviewerState)

/-- Plain lookup (no default, no mutation): `k in d` view of the dict. -/
def ddFind (d : ReviewerMap) (k : String) : Option ReviewerState :=
  (d.find? (fun p => p.1 = k)).map (·.2)

/-- `d[k]` on the defaultdict: returns the value, inserting
`ReviewerState.NONE` at the end when the key is absent (auto-vivification). -/
def ddGet (d : ReviewerMap) (k : String) : ReviewerMap × ReviewerState :=
  match ddFind d k with
  | some v => (d, v)
  | none => (d ++ [(k, ReviewerState.NONE)], ReviewerState.NONE)

/-- `d[k] = v`: replace the entry if present, else append. -/
def ddSet (d : ReviewerMap) (k : String) (v : ReviewerState) : ReviewerMap :=
  match d with
  | [] => [(k, v)]
  | (k0, v0) :: rest =>
    if k0 = k then (k, v) :: rest else (k0, v0) :: ddSet rest k v

/-- `del d[k]`: remove the entry; `none` models the `KeyError` raised when
the key is absent (`defaultdict` supplies defaults only on reads). -/
def ddDel (d : ReviewerMap) (k : String) : Option ReviewerMap :=
  match d with
  | [] => none
  | (k0, v0) :: rest =>
    if k0 = k then some rest else (ddDel rest k).map ((k0, v0) :: ·)

/-- `d.values()`. -/
def ddValues (d : ReviewerMap) : List ReviewerState := d.map (·.2)

/-- The `PrStateMachine` instance state (src/pr_state_machine.py `__init__`):
timestamps, reviewer map, duration accumulators, current/previous state,
`last_review_requested` and `finish_time`. -/
structure Machine where
  last_event_time : Int
  last_state_change_time : Int
  reviewer_states : ReviewerMap
  total_under_review_duration : Int
  total_under_development_duration : Int
  state : PrState
  previous_state : PrState
  last_review_requested : Option Int
  finish_time : Option Int
deriving Repr, DecidableEq

/-- `PrStateMachine.__init__(create_time, last_approval)`. -/
def initMachine (create_time : Int) (last_approval : Option Int) : Machine :=
  let t0 := match last_approval with
    | some la => min create_time la
    | none => create_time
  { last_event_time := t0
    last_state_change_time := t0
    reviewer_states := []
    total_under_review_duration := 0
    total_under_development_duration := 0
    state := match last_approval with
      | some _ => PrState.WAITING
      | none => PrState.UNDER_DEVELOPMENT
    previous_state := match last_approval with
      | some _ => PrState.WAITING
      | none => PrState.UNDER_DEVELOPMENT
    last_review_requested := none
    finish_time := none }

/-- `PrStateMachine._update_reviewer_states` (lines 154-175).  The
`ReviewRequestRemoved` branch performs `del reviewer_states[reviewer]`,
which raises `KeyError` (modelled as `Except.error`) for an absent key. -/
def update_reviewer_states (m : Machine) (e : Event) : Except Machine Machine :=
  match e with
  | .reviewRequested t r | .reviewDismissed t r =>
    let (d1, cur) := ddGet m.reviewer_states r
    let d2 :=
      if cur ≠ ReviewerState.APPROVED then ddSet d1 r ReviewerState.REVIEW_REQUESTED
      else ddSet d1 r ReviewerState.REVIEW_REQUESTED_POST_APPROVAL
    Except.ok { m with reviewer_states := d2, last_review_requested := some t }
  | .reviewRequestRemoved _ r =>
    match ddDel m.reviewer_states r with
    | some d1 => Except.ok { m with reviewer_states := d1 }
    | none => Except.error m
  | .review _ r s =>
    if s = "CHANGES_REQUESTED" then
      Except.ok { m with reviewer_states := ddSet m.reviewer_states r ReviewerState.REQUESTED_CHANGES }
    else if s = "DISMISSED" then
      Except.ok { m with reviewer_states := ddSet m.reviewer_states r ReviewerState.REVIEW_REQUESTED }
    else if s = "APPROVED" ∨ (s = "COMMENTED" ∧ r ≠ "patrickkwang") then
      Except.ok { m with reviewer_states := ddSet m.reviewer_states r ReviewerState.APPROVED }
    else Except.ok m
  | _ => Except.ok m

/-- Lines 101-133 of src/pr_state_machine.py, after the `Merge`/`ClosedEvent`
dispatch put `ns0` in the local `new_state` (`none` when the local was never
assigned).  The waiting-override condition reads
`self.reviewer_states["patrickkwang"]`, which auto-vivifies the key; then
`if new_state is not None` raises `UnboundLocalError` when `new_state` is
unbound, so the `elif` derivation chain of lines 115-133 (lead approved →
`APPROVED`, any `REQUESTED_CHANGES` → `UNDER_DEVELOPMENT`, any
`REVIEW_REQUESTED` → `UNDER_REVIEW`, else `UNDER_DEVELOPMENT`) is
unreachable in this revision; the raise is the `Except.error`, carrying the
machine with `last_event_time` already mutated (line 111). -/
def update_pr_state_core (m0 : Machine) (e : Event) (ns0 : Option PrState) :
    Except Machine (Machine × Option Int) :=
  let (d1, leadState) := ddGet m0.reviewer_states "patrickkwang"
  let m1 := { m0 with reviewer_states := d1 }
  let ns1 : Option PrState :=
    if ¬ leadState = ReviewerState.APPROVED ∧ m1.state = PrState.WAITING then
      match e with
      | .previousPhaseApproved _ => some PrState.UNDER_DEVELOPMENT
      | _ => some PrState.WAITING
    else ns0
  let elapsed_in_state := e.created_at - m1.last_state_change_time
  let m2 := { m1 with last_event_time := e.created_at }
  match ns1 with
  | none => Except.error m2
  | some new_state =>
    if new_state = m2.state then Except.ok (m2, none)
    else
      let duration := e.created_at - m2.last_state_change_time
      let m3 := { m2 with
        last_state_change_time := e.created_at
        previous_state := m2.state
        state := new_state }
      let m4 :=
        if m3.previous_state = PrState.UNDER_REVIEW then
          { m3 with total_under_review_duration := m3.total_under_review_duration + duration }
        else if m3.previous_state = PrState.UNDER_DEVELOPMENT then
          { m3 with total_under_development_duration := m3.total_under_development_duration + duration }
        else m3
      Except.ok (m4, some elapsed_in_state)

/-- `PrStateMachine._update_pr_state` (lines 93-144).  A `ClosedEvent` while
already `MERGED` returns `None` before any mutation (lines 98-99); `Merge`
and `ClosedEvent` bind the local `new_state`; every other variant leaves it
unbound for `update_pr_state_core`. -/
def update_pr_state (m : Machine) (e : Event) :
    Except Machine (Machine × Option Int) :=
  match e with
  | .merge _ => update_pr_state_core m e (some PrState.MERGED)
  | .closedEvent _ =>
    if m.state = PrState.MERGED then Except.ok (m, none)
    else update_pr_state_core m e (some PrState.CLOSED)
  | _ => update_pr_state_core m e none

/-- One report entry (src/pr_state_machine.py `Entry`), minus the
presentational summary string: the state held before this event's effect and
the elapsed-in-state duration (null when no transition occurred). -/
structure EntryRec where
  previous_state : PrState
  elapsed_in_state : Option Int
deriving Repr, DecidableEq

/-- One iteration of the `process_events` loop (lines 183-190): reviewer
update, then PR-state update, then the report entry for this event. -/
def process_one (m : Machine) (e : Event) : Except Machine (Machine × EntryRec) :=
  match update_reviewer_states m e with
  | Except.error m1 => Except.error m1
  | Except.ok m1 =>
    match update_pr_state m1 e with
    | Except.error m2 => Except.error m2
    | Except.ok (m2, elapsed_in_state) =>
      Except.ok (m2, ⟨m2.previous_state, elapsed_in_state⟩)

/-- The `process_events` loop over the event list, threading the `approval`
timestamp (first event after which the state is `APPROVED`, lines 186-187). -/
def process_events_from (m : Machine) (approval : Option Int) :
    List Event → Except Machine (List EntryRec × Option Int × Machine)
  | [] => Except.ok ([], approval, m)
  | e :: rest =>
    match process_one m e with
    | Except.error m1 => Except.error m1
    | Except.ok (m1, entry) =>
      let approval1 :=
        if m1.state = PrState.APPROVED ∧ approval = none then some e.created_at
        else approval
      match process_events_from m1 approval1 rest with
      | Except.error mf => Except.error mf
      | Except.ok (entries, ap, mf) => Except.ok (entry :: entries, ap, mf)

/-- `PrStateMachine._wrap_up` (lines 146-152), with the impure `now()` clock
read passed in as `nowT`. -/
def wrap_up (nowT : Int) (m : Machine) : Machine :=
  if m.state = PrState.UNDER_DEVELOPMENT then
    { m with total_under_development_duration :=
        m.total_under_development_duration + (nowT - m.last_state_change_time) }
  else if m.state = PrState.UNDER_REVIEW then
    { m with total_under_review_duration :=
        m.total_under_review_duration + (nowT - m.last_state_change_time) }
  else m

/-- `PrStateMachine.process_events` (lines 177-192): the event loop followed
by `_wrap_up`.  An escaped exception aborts before `_wrap_up` runs. -/
def process_events (m : Machine) (events : List Event) (nowT : Int) :
    Except Machine (List EntryRec × Option Int × Machine) :=
  match process_events_from m none events with
  | Except.error mf => Except.error mf
  | Except.ok (entries, approval, mf) =>
    Except.ok (entries, approval, wrap_up nowT mf)

/-- The machine carried by a result, whether the run completed or raised. -/
def resultMachine : Except Machine (List EntryRec × Option Int × Machine) → Machine
  | Except.error m => m
  | Except.ok (_, _, m) => m

/-- Whether a run completed without an exception. -/
def resultOk : Except Machine (List EntryRec × Option Int × Machine) → Bool
  | Except.error _ => false
  | Except.ok _ => true

/-!
Second layer: the machine as driven by `generate_pr_summary`
(src/project_status.py lines 376-459).  That loop performs the reviewer
updates and the `Merge`/`Closed`/waiting overrides inline and then calls
`pr_state_machine.update_state(event.created_at, new_state)` and later reads
`pr_state_machine.out_of_slo_under_review_duration` — a method and an
attribute that do not exist anywhere under src/.  Those two missing pieces
are modelled from the spec below; everything else in this layer is
translated from src/project_status.py.
-/

/-- Modelled from the spec: the machine state used by `generate_pr_summary`,
which is the src `PrStateMachine` state (`core`) extended with the
`out_of_slo_under_review_duration` accumulator read at
src/project_status.py line 446 but never defined under src/. -/
structure MMachine where
  core : Machine
  out_of_slo_under_review_duration : Int
deriving Repr, DecidableEq

/-- Modelled from the spec: construction of the extended machine
(src/project_status.py line 382); the missing out-of-SLO accumulator starts
at zero. -/
def initMMachine (create_time : Int) (last_approval : Option Int) : MMachine :=
  { core := initMachine create_time last_approval
    out_of_slo_under_review_duration := 0 }

/-- Modelled from the spec: the out-of-SLO accumulation of §4.2 step 6 —
`max(0, duration − SLO_threshold)`, with the excess reduced by the portion
of the review window `[window_start, t]` that falls after `finish_time`
when one has been recorded (time under review after the PR notionally
finished does not count against the SLO). -/
def out_of_slo_increment (slo duration t window_start : Int)
    (finish_time : Option Int) : Int :=
  let excess := max 0 (duration - slo)
  match finish_time with
  | none => excess
  | some f => max 0 (excess - max 0 (t - max f window_start))

/-- Modelled from the spec: the candidate-derivation phase of
`update_state` (spec §4.2 steps 1-2).  `last_event_time` is updated to the
event time; when no override is supplied the candidate is derived from the
reviewer states — lead reviewer `APPROVED` or
`REVIEW_REQUESTED_POST_APPROVAL` gives `APPROVED` (recording `finish_time`
from `last_review_requested` when unset, the variant of
src/pr_state_machine.py lines 115-133), any `REQUESTED_CHANGES` gives
`UNDER_DEVELOPMENT`, any `REVIEW_REQUESTED` (or
`REVIEW_REQUESTED_POST_APPROVAL`, as the spec words it) gives
`UNDER_REVIEW`, else `UNDER_DEVELOPMENT`. -/
def derive_candidate (m : MMachine) (t : Int) (override : Option PrState) :
    MMachine × PrState :=
  let m := { m with core := { m.core with last_event_time := t } }
  match override with
  | some s => (m, s)
  | none =>
    let (d1, leadState) := ddGet m.core.reviewer_states "patrickkwang"
    let m := { m with core := { m.core with reviewer_states := d1 } }
    if leadState = ReviewerState.APPROVED ∨
        leadState = ReviewerState.REVIEW_REQUESTED_POST_APPROVAL then
      let m :=
        if m.core.finish_time = none then
          { m with core := { m.core with finish_time := m.core.last_review_requested } }
        else m
      (m, PrState.APPROVED)
    else if (ddValues m.core.reviewer_states).any
        (fun v => decide (v = ReviewerState.REQUESTED_CHANGES)) then
      (m, PrState.UNDER_DEVELOPMENT)
    else if (ddValues m.core.reviewer_states).any
        (fun v => decide (v = ReviewerState.REVIEW_REQUESTED ∨
          v = ReviewerState.REVIEW_REQUESTED_POST_APPROVAL)) then
      (m, PrState.UNDER_REVIEW)
    else (m, PrState.UNDER_DEVELOPMENT)

/-- Modelled from the spec: the transition phase of `update_state` (spec
§4.2 steps 5-6).  No-op when the candidate equals the current state;
otherwise transition, attribute the closed duration to the matching bucket
and, when leaving `UNDER_REVIEW`, accumulate the out-of-SLO excess.
Returns (machine, previousState, newState, elapsedInPreviousStateOrNull). -/
def apply_candidate (slo t : Int) (m : MMachine) (cand : PrState) :
    MMachine × PrState × PrState × Option Int :=
  if cand = m.core.state then
    (m, m.core.previous_state, m.core.state, none)
  else
    let duration := t - m.core.last_state_change_time
    let window_start := m.core.last_state_change_time
    let prev := m.core.state
    let m1 := { m with core := { m.core with
      last_state_change_time := t
      previous_state := prev
      state := cand } }
    let m2 :=
      if prev = PrState.UNDER_REVIEW then
        { m1 with
          core := { m1.core with total_under_review_duration :=
            m1.core.total_under_review_duration + duration }
          out_of_slo_under_review_duration :=
            m1.out_of_slo_under_review_duration +
              out_of_slo_increment slo duration t window_start m1.core.finish_time }
      else if prev = PrState.UNDER_DEVELOPMENT then
        { m1 with core := { m1.core with total_under_development_duration :=
            m1.core.total_under_development_duration + duration } }
      else m1
    (m2, prev, cand, some duration)

/-- Modelled from the spec: `PrStateMachine.update_state(event_time,
new_state)`, called at src/project_status.py line 435 but absent from
src/pr_state_machine.py.  Spec §4.2 step 1 (elapsed since the last event)
followed by the derivation and transition phases.  Returns the machine
together with (previousState, newState, elapsed,
elapsedInPreviousStateOrNull). -/
def update_state (slo : Int) (m : MMachine) (t : Int)
    (override : Option PrState) : MMachine × PrState × PrState × Int × Option Int :=
  let elapsed := t - m.core.last_event_time
  let d := derive_candidate m t override
  let q := apply_candidate slo t d.1 d.2
  (q.1, q.2.1, q.2.2.1, elapsed, q.2.2.2)

/-- The waiting-override of src/project_status.py lines 424-433 (identical
to src/pr_state_machine.py lines 101-109), followed by the `update_state`
call of line 435; returns the machine only — the entry list and `approval`
output of the loop are not referenced by any claim. -/
def gen_after (slo : Int) (m : MMachine) (e : Event) (ns0 : Option PrState) :
    MMachine :=
  let (d1, leadState) := ddGet m.core.reviewer_states "patrickkwang"
  let m := { m with core := { m.core with reviewer_states := d1 } }
  let ns1 : Option PrState :=
    if ¬ leadState = ReviewerState.APPROVED ∧ m.core.state = PrState.WAITING then
      match e with
      | .previousPhaseApproved _ => some PrState.UNDER_DEVELOPMENT
      | _ => some PrState.WAITING
    else ns0
  (update_state slo m e.created_at ns1).1

/-- One iteration of the `generate_pr_summary` event loop
(src/project_status.py lines 385-439): the inline reviewer-state update
(lines 387-417, the same code as `_update_reviewer_states`, including the
`KeyError` raised by `del` of an absent key), the `Merge`/`ClosedEvent`
override with the `continue` for a `ClosedEvent` while already `MERGED`
(lines 418-423), the waiting override, and the `update_state` call. -/
def gen_step (slo : Int) (m : MMachine) (e : Event) : Except MMachine MMachine :=
  match e with
  | .merge _ => Except.ok (gen_after slo m e (some PrState.MERGED))
  | .closedEvent _ =>
    if m.core.state = PrState.MERGED then Except.ok m
    else Except.ok (gen_after slo m e (some PrState.CLOSED))
  | _ =>
    match update_reviewer_states m.core e with
    | Except.error c1 => Except.error { m with core := c1 }
    | Except.ok c1 => Except.ok (gen_after slo { m with core := c1 } e none)

/-- The `generate_pr_summary` event loop over the whole list. -/
def gen_events (slo : Int) (m : MMachine) : List Event → Except MMachine MMachine
  | [] => Except.ok m
  | e :: rest =>
    match gen_step slo m e with
    | Except.error m1 => Except.error m1
    | Except.ok m1 => gen_events slo m1 rest

/-- The inline wrap-up of src/project_status.py lines 440-445 (identical to
`_wrap_up`; it does not touch the out-of-SLO accumulator). -/
def gen_wrap_up (nowT : Int) (m : MMachine) : MMachine :=
  { m with core := wrap_up nowT m.core }

/-- The whole state-machine part of `generate_pr_summary`: construction,
event loop, wrap-up.  An escaped exception aborts before the wrap-up. -/
def gen_process (slo create_time : Int) (last_approval : Option Int)
    (es : List Event) (nowT : Int) : Except MMachine MMachine :=
  match gen_events slo (initMMachine create_time last_approval) es with
  | Except.error m1 => Except.error m1
  | Except.ok m1 => Except.ok (gen_wrap_up nowT m1)

/-- The machine carried by a layer-two result, completed or raised. -/
def genResultMachine : Except MMachine MMachine → MMachine
  | Except.error m => m
  | Except.ok m => m

/-- Ceiling division `⌈a / b⌉` for integers, matching
`math.ceil(a_timedelta / b_timedelta)` for a positive divisor. -/
def ceilDiv (a b : Int) : Int := -((-a).fdiv b)

/-- The lateness/scoring calculator, src/project_status.py lines 446-459, as
a pure function of the due date, the machine's `finish_time`, the out-of-SLO
total (the attribute read at line 446) and the prior adjusted lateness.
Returns (late_by, adjusted_lateness, cumulative_adjusted_lateness,
points_deducted). -/
def compute_scoring (due_date finish_time : Option Int)
    (out_of_slo prior_adjusted_lateness : Int) :
    Option Int × Int × Int × Option Int :=
  let p : Option Int × Int :=
    match due_date, finish_time with
    | some d, some f =>
      let late_by := max (f - d) 0
      (some late_by, max (late_by - out_of_slo) 0)
    | _, _ => (none, -out_of_slo)
  let late_by := p.1
  let adjusted_lateness := p.2
  let cumulative_adjusted_lateness := adjusted_lateness + prior_adjusted_lateness
  let points_deducted :=
    match finish_time with
    | some _ => some (max (ceilDiv cumulative_adjusted_lateness 86400) 0)
    | none => none
  (late_by, adjusted_lateness, cumulative_adjusted_lateness, points_deducted)

/-- The scoring rule exactly as claim C7 words it, for comparison with
`compute_scoring`: lateness = total_under_development − budget (may be
negative); no score when `finish_time` is unset, else
`points_deducted = max(0, ceil(lateness / 1 day))`. -/
def claimed_scoring_C7 (total_under_development budget : Int)
    (finish_time : Option Int) : Option Int :=
  match finish_time with
  | some _ => some (max 0 (ceilDiv (total_under_development - budget) 86400))
  | none => none

/-- The machine carried by a single `_update_pr_state` step, completed or
raised. -/
def stepMachine : Except Machine (Machine × Option Int) → Machine
  | Except.error m => m
  | Except.ok (m, _) => m

end ProjectStatus

namespace ProjectStatus

-- sanity checks on the faithful embedding
example :  -- a bare Created event on a non-gated machine raises (unbound local)
    resultOk (process_events (initMachine 0 none) [Event.created 1] 100) = false := by
  decide

example :  -- a gated machine leaves WAITING on the synthetic signal
    (resultMachine (process_events (initMachine 10 (some 5))
      [Event.previousPhaseApproved 5] 100)).state = PrState.UNDER_DEVELOPMENT := by
  decide

example :  -- merge from UNDER_DEVELOPMENT transitions and attributes to dev
    (resultMachine (process_events (initMachine 0 none) [Event.merge 7] 100)).total_under_development_duration = 7 := by
  decide

end ProjectStatus

namespace ProjectStatus

example :  -- spec §8 concrete scenario on the modelled layer: review duration lands in the review bucket
    (genResultMachine (gen_process 259200 0 none
      [Event.reviewRequested 3600 "patrickkwang",
       Event.review 349200 "patrickkwang" "APPROVED"] 400000)).core.total_under_review_duration
      = 345600 := by
  decide

/-- `update_reviewer_states` never raises except through the
`ReviewRequestRemoved` branch, and on success mutates only the reviewer map
and `last_review_requested`. -/
theorem update_reviewer_states_ok_fields (m : Machine) (e : Event) (m1 : Machine)
    (h : update_reviewer_states m e = Except.ok m1) :
    m1.state = m.state ∧ m1.previous_state = m.previous_state
    ∧ m1.total_under_review_duration = m.total_under_review_duration
    ∧ m1.total_under_development_duration = m.total_under_development_duration
    ∧ m1.last_event_time = m.last_event_time
    ∧ m1.last_state_change_time = m.last_state_change_time
    ∧ m1.finish_time = m.finish_time := by
  cases e <;> simp only [update_reviewer_states] at h
  case created => simp_all
  case previousPhaseApproved => simp_all
  case merge => simp_all
  case closedEvent => simp_all
  case reviewRequested t r =>
    split at h <;> (cases h; simp)
  case reviewDismissed t r =>
    split at h <;> (cases h; simp)
  case reviewRequestRemoved t r =>
    cases hdel : ddDel m.reviewer_states r <;> rw [hdel] at h
    · cases h
    · cases h; simp
  case review t r s =>
    split at h
    · cases h; simp
    · split at h
      · cases h; simp
      · split at h <;> (cases h; simp)

/-- A raise inside `update_reviewer_states` (the `KeyError`) leaves the
machine untouched. -/
theorem update_reviewer_states_error (m : Machine) (e : Event) (m1 : Machine)
    (h : update_reviewer_states m e = Except.error m1) : m1 = m := by
  cases e <;> simp only [update_reviewer_states] at h
  case reviewRequested t r => split at h <;> cases h
  case reviewDismissed t r => split at h <;> cases h
  case reviewRequestRemoved t r =>
    cases hdel : ddDel m.reviewer_states r <;> rw [hdel] at h
    · cases h; rfl
    · cases h
  case review t r s =>
    split at h
    · cases h
    · split at h
      · cases h
      · split at h <;> cases h
  all_goals cases h

end ProjectStatus

namespace ProjectStatus

/-- Claim C1: refuted by evaluation — on a non-gated machine, a plain
`Created` event reaches `if new_state is not None` with the local
`new_state` never assigned, so `process_events` raises `UnboundLocalError`
instead of returning an (entries, approval) pair. -/
theorem C1_process_events_raises :
    resultOk (process_events (initMachine 0 none) [Event.created 1] 100) = false := by
  decide

/-- Claim C3: refuted by evaluation — when the lead reviewer approves on a
non-gated machine, the update raises `UnboundLocalError` before the
candidate-derivation chain of lines 115-133 can run (that chain is
unreachable in this revision), so the state never becomes `APPROVED`. -/
theorem C3_derivation_unreachable :
    resultOk (process_events (initMachine 0 none)
      [Event.review 1 "patrickkwang" "APPROVED"] 100) = false
    ∧ (resultMachine (process_events (initMachine 0 none)
        [Event.review 1 "patrickkwang" "APPROVED"] 100)).state ≠ PrState.APPROVED := by
  decide

/-- Claim C5: refuted by evaluation — `ReviewRequestRemoved` for a reviewer
never tracked executes `del self.reviewer_states[event.reviewer]`, and
`del` on a `defaultdict` does not consult the default factory, so a
`KeyError` is raised; the machine itself is left unchanged. -/
theorem C5_removal_raises :
    resultOk (process_events (initMachine 0 none)
      [Event.reviewRequestRemoved 1 "alice"] 100) = false
    ∧ resultMachine (process_events (initMachine 0 none)
        [Event.reviewRequestRemoved 1 "alice"] 100) = initMachine 0 none := by
  decide

/-- Claim C4, counterexample: on a gated machine still in `WAITING` with the
lead reviewer not approved, a `Merged` event does not set the state to
`MERGED` — the waiting override of lines 101-109 runs after the `Merge`
dispatch and overwrites `new_state` back to `WAITING`. -/
theorem C4_counterexample :
    (stepMachine (update_pr_state (initMachine 10 (some 5)) (Event.merge 20))).state
      = PrState.WAITING
    ∧ PrState.WAITING ≠ PrState.MERGED := by
  decide

/-- Claim C7, counterexample: with `due_date = 0`, `finish_time = 2` days,
`out_of_slo = 0` and no prior lateness, the code deducts
`max(0, ceil((finish_time − due_date)/1 day)) = 2` points, while the
claimed rule `max(0, ceil((total_under_development − budget)/1 day))` gives
`0` for a PR whose `total_under_development` (0) is within its 14-day
budget: lateness is not computed as `total_under_development − budget`. -/
theorem C7_counterexample :
    (compute_scoring (some 0) (some 172800) 0 0).2.2.2 = some 2
    ∧ claimed_scoring_C7 0 1209600 (some 172800) = some 0
    ∧ (some 2 : Option Int) ≠ some 0 := by
  decide

/-- Claim C7, amended: the scorer is a pure function of `due_date`,
`finish_time`, `out_of_slo` and the prior adjusted lateness — not of
`total_under_development`.  When both `due_date` and `finish_time` are set:
`late_by = max(0, finish_time − due_date)`,
`adjusted = max(0, late_by − out_of_slo)`, and
`points = max(0, ceil((adjusted + prior)/1 day))`.  When `finish_time` is
unset no score is emitted (`points = null`) and the adjusted lateness is
`−out_of_slo`. -/
theorem C7_amended :
    (∀ d f o p : Int, compute_scoring (some d) (some f) o p =
      (some (max (f - d) 0), max (max (f - d) 0 - o) 0,
        max (max (f - d) 0 - o) 0 + p,
        some (max (ceilDiv (max (max (f - d) 0 - o) 0 + p) 86400) 0)))
    ∧ (∀ (d : Option Int) (o p : Int),
        compute_scoring d none o p = (none, -o, -o + p, none)) := by
  constructor
  · intro d f o p; rfl
  · intro d o p; cases d <;> rfl

/-- Claim C8, counterexample: after `Merged` at time 5 (non-gated machine
created at 0) and wrap-up at time 100, the two accumulators sum to 5, not
to the wrap-up time minus the construction time (100): the interval between
the merge and the wrap-up is attributed to no bucket. -/
theorem C8_counterexample :
    (resultMachine (process_events (initMachine 0 none) [Event.merge 5] 100)).total_under_development_duration
      + (resultMachine (process_events (initMachine 0 none) [Event.merge 5] 100)).total_under_review_duration
      = 5
    ∧ (5 : Int) ≠ 100 - 0 := by
  decide

end ProjectStatus

namespace ProjectStatus

/-- Claim C4, amended: a `Merged` event never raises, and sets the state to
`MERGED` from every state except one: when the machine is in `WAITING` and
the (auto-vivified) lead reviewer state is not `APPROVED`, the gating
override wins over the `Merged` override and the state stays `WAITING`. -/
theorem C4_amended (m : Machine) (t : Int) :
    (∃ r, update_pr_state m (Event.merge t) = Except.ok r)
    ∧ (stepMachine (update_pr_state m (Event.merge t))).state =
        (if ¬ (ddGet m.reviewer_states "patrickkwang").2 = ReviewerState.APPROVED
            ∧ m.state = PrState.WAITING
         then PrState.WAITING else PrState.MERGED) := by
  rcases hdg : ddGet m.reviewer_states "patrickkwang" with ⟨d1, ls⟩
  by_cases hc : ¬ ls = ReviewerState.APPROVED ∧ m.state = PrState.WAITING
  · simp only [update_pr_state, update_pr_state_core, hdg, hc, if_true, if_pos,
      stepMachine]
    constructor
    · refine ⟨?_, ?_⟩
      · exact ({ m with reviewer_states := d1, last_event_time := t }, none)
      · simp [hc.2, Event.created_at]
    · simp [hc.2, stepMachine]
  · simp only [update_pr_state, update_pr_state_core, hdg, hc, if_false, if_neg,
      stepMachine]
    by_cases hM : PrState.MERGED = m.state
    · simp [hM, hc, stepMachine]
    · simp only [hM, hc, if_false, if_neg, ite_false]
      constructor
      · exact ⟨_, rfl⟩
      · split_ifs <;> rfl

end ProjectStatus

namespace ProjectStatus

/-- The machine carried by a `process_one` result, completed or raised. -/
def procMachine : Except Machine (Machine × EntryRec) → Machine
  | Except.error m => m
  | Except.ok (m, _) => m

/-- From `MERGED`, `_update_pr_state` never moves the state: `Merge` is a
no-op transition, `ClosedEvent` returns early, and every other event raises
before any state write. -/
theorem update_pr_state_merged (m : Machine) (e : Event)
    (h : m.state = PrState.MERGED) :
    (stepMachine (update_pr_state m e)).state = PrState.MERGED := by
  rcases hdg : ddGet m.reviewer_states "patrickkwang" with ⟨d1, ls⟩
  cases e <;>
    simp [update_pr_state, update_pr_state_core, hdg, stepMachine, h]

/-- From `MERGED`, a whole `process_one` step (reviewer update included)
leaves the state `MERGED`, whether it completes or raises. -/
theorem process_one_merged (m : Machine) (e : Event)
    (h : m.state = PrState.MERGED) :
    (procMachine (process_one m e)).state = PrState.MERGED := by
  rcases hr : update_reviewer_states m e with m1 | m1
  · have hm1 : m1 = m := update_reviewer_states_error m e m1 hr
    simp [process_one, hr, procMachine, hm1, h]
  · have hm1 : m1.state = PrState.MERGED :=
      (update_reviewer_states_ok_fields m e m1 hr).1.trans h
    have hups := update_pr_state_merged m1 e hm1
    rcases hu : update_pr_state m1 e with m2 | ⟨m2, d⟩ <;>
      rw [hu] at hups <;> simp [process_one, hr, hu, procMachine] <;>
      simpa [stepMachine] using hups

/-- Claim C2: terminal absorption.  Once the machine is `MERGED`, no event
sequence of any kind moves the state (even sequences whose processing
raises leave the state `MERGED`), and a `Closed` event processed while
`MERGED` is a complete no-op: the machine (all duration accumulators
included) is returned unchanged and the report entry for that event carries
a null duration. -/
theorem C2_terminal_absorption (m : Machine) (es : List Event) (ap : Option Int)
    (h : m.state = PrState.MERGED) :
    (resultMachine (process_events_from m ap es)).state = PrState.MERGED
    ∧ ∀ t : Int, process_one m (Event.closedEvent t) =
        Except.ok (m, ⟨m.previous_state, none⟩) := by
  constructor
  · induction es generalizing m ap with
    | nil => simpa [process_events_from, resultMachine] using h
    | cons e rest ih =>
      have hstep := process_one_merged m e h
      simp only [process_events_from]
      rcases hp : process_one m e with m1 | ⟨m1, entry⟩
      · rw [hp] at hstep
        simpa [resultMachine] using hstep
      · rw [hp] at hstep
        simp only [procMachine] at hstep
        have hrec := ih m1
          (if m1.state = PrState.APPROVED ∧ ap = none then some e.created_at else ap)
          hstep
        rcases hr : process_events_from m1
            (if m1.state = PrState.APPROVED ∧ ap = none then some e.created_at else ap)
            rest with mf | ⟨entries, ap2, mf⟩ <;>
          rw [hr] at hrec <;> simp only [resultMachine] at hrec <;>
          simpa [resultMachine, hr] using hrec
  · intro t
    simp [process_one, update_reviewer_states, update_pr_state, h]

/-- A concrete machine that has reached `MERGED` (created at 0, merged at 5). -/
def mergedSample : Machine :=
  resultMachine (process_events (initMachine 0 none) [Event.merge 5] 100)

/-- Witness for C2 at a concrete merged machine, event list and `Closed`
timestamp. -/
theorem C2_witness :
    mergedSample.state = PrState.MERGED
    ∧ (resultMachine (process_events_from mergedSample none
        [Event.created 7, Event.closedEvent 8])).state = PrState.MERGED
    ∧ process_one mergedSample (Event.closedEvent 9) =
        Except.ok (mergedSample, ⟨mergedSample.previous_state, none⟩) :=
  ⟨by decide,
   (C2_terminal_absorption mergedSample [Event.created 7, Event.closedEvent 8]
      none (by decide)).1,
   (C2_terminal_absorption mergedSample [] none (by decide)).2 9⟩

end ProjectStatus

namespace ProjectStatus

/-- When `update_pr_state_core` completes and leaves the state unchanged, it
took the no-transition path: null reported duration and untouched
accumulators and `last_state_change_time`. -/
theorem update_pr_state_core_noop (m : Machine) (e : Event) (ns0 : Option PrState)
    (m1 : Machine) (d : Option Int)
    (h : update_pr_state_core m e ns0 = Except.ok (m1, d))
    (hs : m1.state = m.state) :
    d = none ∧ m1.total_under_review_duration = m.total_under_review_duration
    ∧ m1.total_under_development_duration = m.total_under_development_duration
    ∧ m1.last_state_change_time = m.last_state_change_time := by
  rcases hdg : ddGet m.reviewer_states "patrickkwang" with ⟨d1, ls⟩
  simp only [update_pr_state_core, hdg] at h
  by_cases hC : ¬ ls = ReviewerState.APPROVED ∧ m.state = PrState.WAITING
  · rw [if_pos hC] at h
    cases e <;> simp only at h <;> split at h <;> cases h <;> simp <;>
      (simp only [apply_ite Machine.state, ite_self] at hs; simp_all)
  · rw [if_neg hC] at h
    cases ns0 with
    | none => cases h
    | some s =>
      simp only at h
      split at h <;>
        (cases h
         first
           | exact ⟨rfl, rfl, rfl, rfl⟩
           | (simp only [apply_ite Machine.state, ite_self] at hs; simp_all))

end ProjectStatus

namespace ProjectStatus

/-- The derivation phase changes neither the state nor any accumulator nor
`last_state_change_time`; it sets `last_event_time` to the event time. -/
theorem derive_candidate_frame (m : MMachine) (t : Int) (ov : Option PrState) :
    (derive_candidate m t ov).1.core.state = m.core.state
    ∧ (derive_candidate m t ov).1.core.previous_state = m.core.previous_state
    ∧ (derive_candidate m t ov).1.core.total_under_review_duration
        = m.core.total_under_review_duration
    ∧ (derive_candidate m t ov).1.core.total_under_development_duration
        = m.core.total_under_development_duration
    ∧ (derive_candidate m t ov).1.out_of_slo_under_review_duration
        = m.out_of_slo_under_review_duration
    ∧ (derive_candidate m t ov).1.core.last_state_change_time
        = m.core.last_state_change_time
    ∧ (derive_candidate m t ov).1.core.last_event_time = t
    ∧ (derive_candidate m t ov).1.core.last_review_requested
        = m.core.last_review_requested := by
  cases ov with
  | some s => simp [derive_candidate]
  | none =>
    rcases hdg : ddGet m.core.reviewer_states "patrickkwang" with ⟨d1, ls⟩
    simp only [derive_candidate, hdg]
    split_ifs <;> simp

/-- When the candidate equals the current state, the transition phase is the
identity with a null reported duration. -/
theorem apply_candidate_noop (slo t : Int) (m : MMachine) (cand : PrState)
    (h : cand = m.core.state) :
    apply_candidate slo t m cand = (m, m.core.previous_state, m.core.state, none) := by
  simp [apply_candidate, h]

/-- The transition phase always ends in the candidate state. -/
theorem apply_candidate_state (slo t : Int) (m : MMachine) (cand : PrState) :
    (apply_candidate slo t m cand).1.core.state = cand := by
  by_cases h : cand = m.core.state
  · simp [apply_candidate, h]
  · simp only [apply_candidate, if_neg h]
    split_ifs <;> simp

/-- Claim C9: no-op frame property.  In the src `_update_pr_state`, a
completed update that leaves the state unchanged reports a null
duration-in-prior-state and leaves both duration accumulators and
`last_state_change_time` untouched; in the modelled `update_state` (the
only layer where the out-of-SLO accumulator exists), an update whose
derived candidate equals the current state additionally leaves
`out_of_slo_under_review_duration` untouched and reports a null
elapsed-in-prior-state. -/
theorem C9_noop_frame :
    (∀ (m : Machine) (e : Event) (m1 : Machine) (d : Option Int),
      update_pr_state m e = Except.ok (m1, d) → m1.state = m.state →
      d = none
      ∧ m1.total_under_review_duration = m.total_under_review_duration
      ∧ m1.total_under_development_duration = m.total_under_development_duration
      ∧ m1.last_state_change_time = m.last_state_change_time)
    ∧ (∀ (slo : Int) (m : MMachine) (t : Int) (ov : Option PrState),
      (update_state slo m t ov).1.core.state = m.core.state →
      (update_state slo m t ov).2.2.2.2 = none
      ∧ (update_state slo m t ov).1.core.total_under_review_duration
          = m.core.total_under_review_duration
      ∧ (update_state slo m t ov).1.core.total_under_development_duration
          = m.core.total_under_development_duration
      ∧ (update_state slo m t ov).1.out_of_slo_under_review_duration
          = m.out_of_slo_under_review_duration
      ∧ (update_state slo m t ov).1.core.last_state_change_time
          = m.core.last_state_change_time) := by
  constructor
  · intro m e m1 d h hs
    cases e with
    | closedEvent t =>
      simp only [update_pr_state] at h
      split at h
      · cases h; exact ⟨rfl, rfl, rfl, rfl⟩
      · exact update_pr_state_core_noop m (Event.closedEvent t) (some PrState.CLOSED) m1 d h hs
    | created t =>
      exact update_pr_state_core_noop m (Event.created t) none m1 d h hs
    | previousPhaseApproved t =>
      exact update_pr_state_core_noop m (Event.previousPhaseApproved t) none m1 d h hs
    | reviewRequested t r =>
      exact update_pr_state_core_noop m (Event.reviewRequested t r) none m1 d h hs
    | reviewRequestRemoved t r =>
      exact update_pr_state_core_noop m (Event.reviewRequestRemoved t r) none m1 d h hs
    | reviewDismissed t r =>
      exact update_pr_state_core_noop m (Event.reviewDismissed t r) none m1 d h hs
    | review t r s =>
      exact update_pr_state_core_noop m (Event.review t r s) none m1 d h hs
    | merge t =>
      exact update_pr_state_core_noop m (Event.merge t) (some PrState.MERGED) m1 d h hs
  · intro slo m t ov hs
    have hd := derive_candidate_frame m t ov
    by_cases hc : (derive_candidate m t ov).2 = (derive_candidate m t ov).1.core.state
    · have hap := apply_candidate_noop slo t (derive_candidate m t ov).1 _ hc
      simp only [update_state, hap]
      first
        | exact ⟨hd.2.2.1, hd.2.2.2.1, hd.2.2.2.2.1, hd.2.2.2.2.2.1⟩
        | exact ⟨trivial, hd.2.2.1, hd.2.2.2.1, hd.2.2.2.2.1, hd.2.2.2.2.2.1⟩
    · exfalso
      have h1 : (update_state slo m t ov).1.core.state = (derive_candidate m t ov).2 := by
        simp only [update_state]
        exact apply_candidate_state slo t _ _
      rw [h1] at hs
      exact hc (hs.trans hd.1.symm)

/-- Witness for C9: a merged machine fed another `Merge` (no state change)
on the src layer, and a fresh machine fed an event deriving
`UNDER_DEVELOPMENT` (its current state) on the modelled layer. -/
theorem C9_witness :
    (stepMachine (update_pr_state mergedSample (Event.merge 6))).total_under_review_duration
      = mergedSample.total_under_review_duration
    ∧ (update_state 259200 (initMMachine 0 none) 3 none).2.2.2.2 = none := by
  constructor
  · exact (C9_noop_frame.1 mergedSample (Event.merge 6) _ _ rfl (by decide)).2.1
  · exact (C9_noop_frame.2 259200 (initMMachine 0 none) 3 none (by decide)).1

end ProjectStatus

namespace ProjectStatus

/-- From a terminal state (`MERGED` or `CLOSED`), a completed
`_update_pr_state` never touches the two duration accumulators and stays
terminal (the `CLOSED → MERGED` transition attributes its duration to no
bucket). -/
theorem update_pr_state_terminal (m : Machine) (e : Event)
    (hT : m.state = PrState.MERGED ∨ m.state = PrState.CLOSED)
    (m1 : Machine) (d : Option Int)
    (h : update_pr_state m e = Except.ok (m1, d)) :
    m1.total_under_development_duration = m.total_under_development_duration
    ∧ m1.total_under_review_duration = m.total_under_review_duration
    ∧ (m1.state = PrState.MERGED ∨ m1.state = PrState.CLOSED) := by
  rcases hdg : ddGet m.reviewer_states "patrickkwang" with ⟨d1, ls⟩
  have hW : ¬ m.state = PrState.WAITING := by
    rcases hT with h1 | h1 <;> simp [h1]
  have hUR : ¬ m.state = PrState.UNDER_REVIEW := by
    rcases hT with h1 | h1 <;> simp [h1]
  have hUD : ¬ m.state = PrState.UNDER_DEVELOPMENT := by
    rcases hT with h1 | h1 <;> simp [h1]
  cases e with
  | merge t =>
    simp only [update_pr_state, update_pr_state_core, hdg] at h
    rw [if_neg (fun hc => hW hc.2)] at h
    simp only at h
    split at h <;> cases h
    · exact ⟨rfl, rfl, hT⟩
    · exact ⟨rfl, rfl, Or.inl rfl⟩
  | closedEvent t =>
    simp only [update_pr_state] at h
    split at h
    · cases h
      exact ⟨rfl, rfl, hT⟩
    · have hc : m.state = PrState.CLOSED := by
        rcases hT with h1 | h1
        · exact absurd h1 (by assumption)
        · exact h1
      simp only [update_pr_state_core, hdg] at h
      rw [if_neg (fun hcc => hW hcc.2)] at h
      simp only at h
      rw [if_pos (by simpa using hc.symm)] at h
      cases h
      exact ⟨rfl, rfl, Or.inr hc⟩
  | created t =>
    simp only [update_pr_state, update_pr_state_core, hdg] at h
    rw [if_neg (fun hc => hW hc.2)] at h
    simp at h
  | previousPhaseApproved t =>
    simp only [update_pr_state, update_pr_state_core, hdg] at h
    rw [if_neg (fun hc => hW hc.2)] at h
    simp at h
  | reviewRequested t r =>
    simp only [update_pr_state, update_pr_state_core, hdg] at h
    rw [if_neg (fun hc => hW hc.2)] at h
    simp at h
  | reviewRequestRemoved t r =>
    simp only [update_pr_state, update_pr_state_core, hdg] at h
    rw [if_neg (fun hc => hW hc.2)] at h
    simp at h
  | reviewDismissed t r =>
    simp only [update_pr_state, update_pr_state_core, hdg] at h
    rw [if_neg (fun hc => hW hc.2)] at h
    simp at h
  | review t r s =>
    simp only [update_pr_state, update_pr_state_core, hdg] at h
    rw [if_neg (fun hc => hW hc.2)] at h
    simp at h

/-- From a terminal state, a completed `process_one` step preserves both
duration accumulators and terminality. -/
theorem process_one_terminal (m : Machine) (e : Event)
    (hT : m.state = PrState.MERGED ∨ m.state = PrState.CLOSED)
    (m1 : Machine) (entry : EntryRec)
    (h : process_one m e = Except.ok (m1, entry)) :
    m1.total_under_development_duration = m.total_under_development_duration
    ∧ m1.total_under_review_duration = m.total_under_review_duration
    ∧ (m1.state = PrState.MERGED ∨ m1.state = PrState.CLOSED) := by
  rcases hr : update_reviewer_states m e with ma | ma
  · simp [process_one, hr] at h
  · obtain ⟨hfs, _, hfr, hfd, _, _, _⟩ := update_reviewer_states_ok_fields m e ma hr
    simp only [process_one, hr] at h
    rcases hu : update_pr_state ma e with mb | ⟨mb, db⟩ <;> rw [hu] at h
    · simp at h
    · simp only at h
      cases h
      have hres := update_pr_state_terminal ma e (by rw [hfs]; exact hT) _ _ hu
      exact ⟨hres.1.trans hfd, hres.2.1.trans hfr, hres.2.2⟩

/-- Over a whole event list from a terminal state, a completed run
preserves both accumulators and terminality. -/
theorem process_events_from_terminal (es : List Event) :
    ∀ (m : Machine) (ap : Option Int),
    (m.state = PrState.MERGED ∨ m.state = PrState.CLOSED) →
    ∀ (entries : List EntryRec) (ap2 : Option Int) (mf : Machine),
    process_events_from m ap es = Except.ok (entries, ap2, mf) →
    mf.total_under_development_duration = m.total_under_development_duration
    ∧ mf.total_under_review_duration = m.total_under_review_duration
    ∧ (mf.state = PrState.MERGED ∨ mf.state = PrState.CLOSED) := by
  induction es with
  | nil =>
    intro m ap hT entries ap2 mf h
    simp only [process_events_from] at h
    cases h
    exact ⟨rfl, rfl, hT⟩
  | cons e rest ih =>
    intro m ap hT entries ap2 mf h
    simp only [process_events_from] at h
    rcases hp : process_one m e with m1 | ⟨m1, entry⟩ <;> rw [hp] at h
    · simp at h
    · simp only at h
      obtain ⟨h1, h2, h3⟩ := process_one_terminal m e hT m1 entry hp
      rcases hr : process_events_from m1
          (if m1.state = PrState.APPROVED ∧ ap = none then some e.created_at else ap)
          rest with mf2 | ⟨entries2, ap3, mf2⟩ <;> rw [hr] at h
      · simp at h
      · simp only at h
        cases h
        obtain ⟨g1, g2, g3⟩ := ih m1 _ h3 _ _ _ hr
        exact ⟨g1.trans h1, g2.trans h2, g3⟩

end ProjectStatus

namespace ProjectStatus

/-- `_wrap_up` is the identity on terminal states. -/
theorem wrap_up_terminal (nowT : Int) (m : Machine)
    (hT : m.state = PrState.MERGED ∨ m.state = PrState.CLOSED) :
    wrap_up nowT m = m := by
  rcases hT with h1 | h1 <;> simp [wrap_up, h1]

/-- Whether a single `_update_pr_state` call completed. -/
def stepOk : Except Machine (Machine × Option Int) → Bool
  | Except.error _ => false
  | Except.ok _ => true

/-- A raising step is an `Except.error`. -/
theorem stepOk_false (r : Except Machine (Machine × Option Int))
    (h : stepOk r = false) : ∃ m2, r = Except.error m2 := by
  cases r with
  | error m => exact ⟨m, rfl⟩
  | ok p => simp [stepOk] at h

/-- Outside `WAITING`, any event that is neither `Merge` nor `ClosedEvent`
leaves the local `new_state` unbound, so `_update_pr_state` raises. -/
theorem update_pr_state_stuck (m : Machine) (e : Event)
    (hW : ¬ m.state = PrState.WAITING)
    (hm : ∀ t : Int, e ≠ Event.merge t)
    (hc : ∀ t : Int, e ≠ Event.closedEvent t) :
    stepOk (update_pr_state m e) = false := by
  rcases hdg : ddGet m.reviewer_states "patrickkwang" with ⟨d1, ls⟩
  cases e with
  | merge t => exact absurd rfl (hm t)
  | closedEvent t => exact absurd rfl (hc t)
  | created t =>
    simp only [update_pr_state, update_pr_state_core, hdg]
    rw [if_neg (fun hcc => hW hcc.2)]
    rfl
  | previousPhaseApproved t =>
    simp only [update_pr_state, update_pr_state_core, hdg]
    rw [if_neg (fun hcc => hW hcc.2)]
    rfl
  | reviewRequested t r =>
    simp only [update_pr_state, update_pr_state_core, hdg]
    rw [if_neg (fun hcc => hW hcc.2)]
    rfl
  | reviewRequestRemoved t r =>
    simp only [update_pr_state, update_pr_state_core, hdg]
    rw [if_neg (fun hcc => hW hcc.2)]
    rfl
  | reviewDismissed t r =>
    simp only [update_pr_state, update_pr_state_core, hdg]
    rw [if_neg (fun hcc => hW hcc.2)]
    rfl
  | review t r s =>
    simp only [update_pr_state, update_pr_state_core, hdg]
    rw [if_neg (fun hcc => hW hcc.2)]
    rfl

/-- On a freshly constructed non-gated machine, the only events whose
processing completes are `Merge` and `ClosedEvent`; both transition out of
`UNDER_DEVELOPMENT` into a terminal state and attribute the elapsed time to
the development bucket. -/
theorem process_one_init (t0 : Int) (e : Event) (m1 : Machine) (entry : EntryRec)
    (h : process_one (initMachine t0 none) e = Except.ok (m1, entry)) :
    m1.total_under_development_duration = e.created_at - t0
    ∧ m1.total_under_review_duration = 0
    ∧ (m1.state = PrState.MERGED ∨ m1.state = PrState.CLOSED) := by
  cases e with
  | review t r s =>
    exfalso
    rcases hr : update_reviewer_states (initMachine t0 none) (Event.review t r s)
        with ma | ma
    · simp only [process_one, hr] at h
      exact Except.noConfusion h
    · have hst : ma.state = (initMachine t0 none).state :=
        (update_reviewer_states_ok_fields _ _ _ hr).1
      obtain ⟨m2, he⟩ := stepOk_false _ (update_pr_state_stuck ma (Event.review t r s)
        (by rw [hst]; simp [initMachine])
        (fun u hu => Event.noConfusion hu) (fun u hu => Event.noConfusion hu))
      rw [process_one, hr] at h
      simp only [he] at h
      exact Except.noConfusion h
  | merge t =>
    simp [process_one, update_reviewer_states, update_pr_state,
      update_pr_state_core, ddGet, ddFind, initMachine, Event.created_at] at h
    rcases h with ⟨h1, h2⟩
    subst h1
    refine ⟨by simp [Event.created_at], by simp, Or.inl rfl⟩
  | closedEvent t =>
    simp [process_one, update_reviewer_states, update_pr_state,
      update_pr_state_core, ddGet, ddFind, initMachine, Event.created_at] at h
    rcases h with ⟨h1, h2⟩
    subst h1
    refine ⟨by simp [Event.created_at], by simp, Or.inr rfl⟩
  | created t =>
    simp [process_one, update_reviewer_states, update_pr_state,
      update_pr_state_core, ddGet, ddFind, initMachine, Event.created_at] at h
  | previousPhaseApproved t =>
    simp [process_one, update_reviewer_states, update_pr_state,
      update_pr_state_core, ddGet, ddFind, initMachine, Event.created_at] at h
  | reviewRequested t r =>
    simp [process_one, update_reviewer_states, update_pr_state,
      update_pr_state_core, ddGet, ddFind, ddSet, initMachine, Event.created_at] at h
  | reviewRequestRemoved t r =>
    simp [process_one, update_reviewer_states, update_pr_state,
      update_pr_state_core, ddGet, ddFind, ddDel, initMachine, Event.created_at] at h
  | reviewDismissed t r =>
    simp [process_one, update_reviewer_states, update_pr_state,
      update_pr_state_core, ddGet, ddFind, ddSet, initMachine, Event.created_at] at h

/-- Claim C8, amended: on a non-gated machine, a run of `process_events`
that completes without raising consists of `Merge`/`Closed` events only, so
after wrap-up `total_under_development + total_under_review` equals the
time of the first transition into a terminal state minus the construction
time when the event list is nonempty (everything after that transition is
attributed to no bucket), and equals the wrap-up time minus the
construction time only when the event list is empty. -/
theorem C8_amended (t0 : Int) (es : List Event) (nowT : Int)
    (entries : List EntryRec) (ap : Option Int) (mf : Machine)
    (h : process_events (initMachine t0 none) es nowT = Except.ok (entries, ap, mf)) :
    mf.total_under_development_duration + mf.total_under_review_duration
      = ((es.head?.map Event.created_at).getD nowT) - t0 := by
  simp only [process_events] at h
  rcases hr : process_events_from (initMachine t0 none) none es
      with mf0 | ⟨entries0, ap0, mf0⟩ <;> rw [hr] at h
  · simp at h
  · simp only at h
    cases h
    cases es with
    | nil =>
      simp only [process_events_from] at hr
      cases hr
      simp [wrap_up, initMachine]
    | cons e rest =>
      simp only [process_events_from] at hr
      rcases hp : process_one (initMachine t0 none) e with m1 | ⟨m1, entry⟩ <;>
        rw [hp] at hr
      · simp at hr
      · simp only at hr
        obtain ⟨g1, g2, g3⟩ := process_one_init t0 e m1 entry hp
        split at hr
        · exact absurd hr (by simp)
        · rename_i entries2 ap2 mf2 heq
          cases hr
          obtain ⟨k1, k2, k3⟩ := process_events_from_terminal rest m1 _ g3 _ _ _ heq
          rw [wrap_up_terminal nowT _ k3, k1, k2, g1, g2]
          simp

end ProjectStatus

namespace ProjectStatus

/-- Witness for C8 at a concrete completed run: non-gated machine created
at 0, merged at 5, wrap-up at 100; the accumulators sum to the first
(terminal) event time minus the construction time. -/
theorem C8_witness :
    process_events (initMachine 0 none) [Event.merge 5] 100
      = Except.ok ([⟨PrState.UNDER_DEVELOPMENT, some 5⟩], none, mergedSample)
    ∧ mergedSample.total_under_development_duration
        + mergedSample.total_under_review_duration
      = (([Event.merge 5].head?.map Event.created_at).getD 100) - 0 :=
  ⟨by rfl,
   C8_amended 0 [Event.merge 5] 100 [⟨PrState.UNDER_DEVELOPMENT, some 5⟩] none
     mergedSample (by rfl)⟩

end ProjectStatus

namespace ProjectStatus

/-- The transition phase never touches `finish_time`. -/
theorem apply_candidate_finish (slo t : Int) (m : MMachine) (cand : PrState) :
    (apply_candidate slo t m cand).1.core.finish_time = m.core.finish_time := by
  by_cases h : cand = m.core.state
  · simp [apply_candidate, h]
  · simp only [apply_candidate, if_neg h]
    split_ifs <;> simp

/-- The transition phase reports the candidate as the new state. -/
theorem apply_candidate_newState (slo t : Int) (m : MMachine) (cand : PrState) :
    (apply_candidate slo t m cand).2.2.1 = cand := by
  by_cases h : cand = m.core.state
  · simp [apply_candidate, h]
  · simp only [apply_candidate, if_neg h]

/-- If the derivation phase turns an unset `finish_time` into a set one,
the stored value is the machine's current `last_review_requested` and the
candidate is `APPROVED` (the only branch that writes `finish_time`). -/
theorem derive_candidate_finish (m : MMachine) (t : Int) (ov : Option PrState)
    (h0 : m.core.finish_time = none)
    (h1 : (derive_candidate m t ov).1.core.finish_time ≠ none) :
    (derive_candidate m t ov).1.core.finish_time = m.core.last_review_requested
    ∧ (derive_candidate m t ov).2 = PrState.APPROVED := by
  cases ov with
  | some s => simp [derive_candidate, h0] at h1
  | none =>
    rcases hdg : ddGet m.core.reviewer_states "patrickkwang" with ⟨d1, ls⟩
    simp only [derive_candidate, hdg] at h1 ⊢
    split_ifs at h1 ⊢ <;> simp_all

/-- Claim C10: whenever `finish_time` becomes set during an update, its
stored value is the current `last_review_requested` (not the event's own
timestamp) and the derived state is `APPROVED`; in particular, when the
lead reviewer approves before any `ReviewRequested`/`ReviewDismissed`
event, `last_review_requested` is still null, so `finish_time` stays null
even though the state reaches `APPROVED`, and the scorer then emits no
score (`points_deducted` is null). -/
theorem C10_finish_time :
    (∀ (slo : Int) (m : MMachine) (t : Int) (ov : Option PrState),
      m.core.finish_time = none →
      (update_state slo m t ov).1.core.finish_time ≠ none →
      (update_state slo m t ov).1.core.finish_time = m.core.last_review_requested
      ∧ (update_state slo m t ov).2.2.1 = PrState.APPROVED)
    ∧ ((genResultMachine (gen_process 259200 0 none
          [Event.review 5 "patrickkwang" "APPROVED"] 100)).core.state = PrState.APPROVED
      ∧ (genResultMachine (gen_process 259200 0 none
          [Event.review 5 "patrickkwang" "APPROVED"] 100)).core.finish_time = none
      ∧ (compute_scoring (some 0)
          (genResultMachine (gen_process 259200 0 none
            [Event.review 5 "patrickkwang" "APPROVED"] 100)).core.finish_time 0 0).2.2.2
          = none) := by
  constructor
  · intro slo m t ov h0 h1
    have hfin : (update_state slo m t ov).1.core.finish_time
        = (derive_candidate m t ov).1.core.finish_time := by
      simp only [update_state]
      exact apply_candidate_finish slo t _ _
    rw [hfin] at h1 ⊢
    have hd := derive_candidate_finish m t ov h0 h1
    refine ⟨hd.1, ?_⟩
    have hns : (update_state slo m t ov).2.2.1 = (derive_candidate m t ov).2 := by
      simp only [update_state]
      exact apply_candidate_newState slo t _ _
    rw [hns, hd.2]
  · exact ⟨by decide, by decide, by decide⟩

/-- A concrete machine under review with the lead reviewer approved,
`last_review_requested = 2` and `finish_time` still unset. -/
def c10Sample : MMachine :=
  { core :=
      { last_event_time := 2
        last_state_change_time := 2
        reviewer_states := [("patrickkwang", ReviewerState.APPROVED)]
        total_under_review_duration := 0
        total_under_development_duration := 0
        state := PrState.UNDER_REVIEW
        previous_state := PrState.UNDER_DEVELOPMENT
        last_review_requested := some 2
        finish_time := none }
    out_of_slo_under_review_duration := 0 }

/-- Witness for C10 at a concrete input where `finish_time` becomes set. -/
theorem C10_witness :
    c10Sample.core.finish_time = none
    ∧ (update_state 259200 c10Sample 5 none).1.core.finish_time ≠ none
    ∧ (update_state 259200 c10Sample 5 none).1.core.finish_time
        = c10Sample.core.last_review_requested
    ∧ (update_state 259200 c10Sample 5 none).2.2.1 = PrState.APPROVED :=
  ⟨by decide, by decide,
   (C10_finish_time.1 259200 c10Sample 5 none (by decide) (by decide)).1,
   (C10_finish_time.1 259200 c10Sample 5 none (by decide) (by decide)).2⟩

end ProjectStatus

namespace ProjectStatus

/-- Events are in nondecreasing timestamp order, starting no earlier than t. -/
def timesOrderedb (t : Int) : List Event → Bool
  | [] => true
  | e :: es => decide (t ≤ e.created_at) && timesOrderedb e.created_at es

/-- Ordering is downward monotone in the starting bound. -/
theorem timesOrderedb_mono (t' t : Int) (l : List Event) (h : t' ≤ t)
    (ho : timesOrderedb t l = true) : timesOrderedb t' l = true := by
  cases l with
  | nil => rfl
  | cons e es =>
    simp only [timesOrderedb, Bool.and_eq_true, decide_eq_true_eq] at ho ⊢
    exact ⟨le_trans h ho.1, ho.2⟩

/-- The starting bound is below the final sentinel timestamp. -/
theorem timesOrderedb_last (t nowT : Int) (l : List Event)
    (h : timesOrderedb t (l ++ [Event.created nowT]) = true) : t ≤ nowT := by
  induction l generalizing t with
  | nil =>
    simpa [timesOrderedb, Event.created_at] using h
  | cons e es ih =>
    simp only [List.cons_append, timesOrderedb, Bool.and_eq_true,
      decide_eq_true_eq] at h
    exact le_trans h.1 (ih e.created_at h.2)

/-- The machine invariant the out-of-SLO bound rests on: the accumulator is
nonnegative, bounded by the review total, and the last state change is no
later than the last processed event. -/
def MInv (m : MMachine) : Prop :=
  0 ≤ m.out_of_slo_under_review_duration
  ∧ m.out_of_slo_under_review_duration ≤ m.core.total_under_review_duration
  ∧ m.core.last_state_change_time ≤ m.core.last_event_time

/-- Each out-of-SLO increment lies between 0 and the closed duration. -/
theorem out_of_slo_increment_bounds (slo duration t ws : Int) (fin : Option Int)
    (hslo : 0 ≤ slo) (hdur : 0 ≤ duration) :
    0 ≤ out_of_slo_increment slo duration t ws fin
    ∧ out_of_slo_increment slo duration t ws fin ≤ duration := by
  cases fin <;> simp only [out_of_slo_increment] <;>
    simp only [max_def] <;> split_ifs <;> omega

end ProjectStatus

namespace ProjectStatus

/-- The transition phase preserves the out-of-SLO bounds: any increment is
matched by at least as large an increment of the review total, and the
state-change time never passes the event time. -/
theorem apply_candidate_inv (slo t : Int) (hslo : 0 ≤ slo) (m : MMachine)
    (cand : PrState)
    (h0 : 0 ≤ m.out_of_slo_under_review_duration)
    (h1 : m.out_of_slo_under_review_duration ≤ m.core.total_under_review_duration)
    (hlsc : m.core.last_state_change_time ≤ t) :
    0 ≤ (apply_candidate slo t m cand).1.out_of_slo_under_review_duration
    ∧ (apply_candidate slo t m cand).1.out_of_slo_under_review_duration
        ≤ (apply_candidate slo t m cand).1.core.total_under_review_duration
    ∧ (apply_candidate slo t m cand).1.core.last_state_change_time ≤ t
    ∧ (apply_candidate slo t m cand).1.core.last_event_time
        = m.core.last_event_time := by
  by_cases h : cand = m.core.state
  · simp only [apply_candidate, if_pos h]
    exact ⟨h0, h1, hlsc, trivial⟩
  · have hinc := out_of_slo_increment_bounds slo (t - m.core.last_state_change_time)
      t m.core.last_state_change_time m.core.finish_time hslo (by omega)
    simp only [apply_candidate, if_neg h]
    split_ifs <;> simp only <;>
      exact ⟨by omega, by omega, le_refl t, trivial⟩

/-- One modelled `update_state` call preserves the invariant and moves
`last_event_time` to the event time. -/
theorem update_state_inv (slo : Int) (hslo : 0 ≤ slo) (m : MMachine) (t : Int)
    (ov : Option PrState) (hInv : MInv m) (ht : m.core.last_event_time ≤ t) :
    MInv (update_state slo m t ov).1
    ∧ (update_state slo m t ov).1.core.last_event_time = t := by
  obtain ⟨h0, h1, h2⟩ := hInv
  have hd := derive_candidate_frame m t ov
  have hap := apply_candidate_inv slo t hslo (derive_candidate m t ov).1
    (derive_candidate m t ov).2
    (by rw [hd.2.2.2.2.1]; exact h0)
    (by rw [hd.2.2.2.2.1, hd.2.2.1]; exact h1)
    (by rw [hd.2.2.2.2.2.1]; exact le_trans h2 ht)
  refine ⟨⟨?_, ?_, ?_⟩, ?_⟩
  · simpa only [update_state] using hap.1
  · simpa only [update_state] using hap.2.1
  · have hle : (apply_candidate slo t (derive_candidate m t ov).1
        (derive_candidate m t ov).2).1.core.last_event_time = t := by
      rw [hap.2.2.2, hd.2.2.2.2.2.2.1]
    simpa only [update_state, hle] using hap.2.2.1
  · simpa only [update_state] using (by rw [hap.2.2.2, hd.2.2.2.2.2.2.1])

end ProjectStatus

namespace ProjectStatus

/-- The waiting-override plus `update_state` part of a loop iteration
preserves the invariant and sets `last_event_time` to the event time. -/
theorem gen_after_inv (slo : Int) (hslo : 0 ≤ slo) (m : MMachine) (e : Event)
    (ns0 : Option PrState) (hInv : MInv m)
    (ht : m.core.last_event_time ≤ e.created_at) :
    MInv (gen_after slo m e ns0)
    ∧ (gen_after slo m e ns0).core.last_event_time = e.created_at := by
  rcases hdg : ddGet m.core.reviewer_states "patrickkwang" with ⟨d1, ls⟩
  simp only [gen_after, hdg]
  exact update_state_inv slo hslo _ e.created_at _ hInv ht

/-- One whole `generate_pr_summary` loop iteration preserves the invariant,
whether it completes or raises, and never moves `last_event_time` past the
event time. -/
theorem gen_step_inv (slo : Int) (hslo : 0 ≤ slo) (m : MMachine) (e : Event)
    (hInv : MInv m) (ht : m.core.last_event_time ≤ e.created_at) :
    MInv (genResultMachine (gen_step slo m e))
    ∧ (genResultMachine (gen_step slo m e)).core.last_event_time
        ≤ e.created_at := by
  cases e
  case merge t =>
    have hA := gen_after_inv slo hslo m (Event.merge t) (some PrState.MERGED) hInv ht
    simp only [gen_step, genResultMachine]
    exact ⟨hA.1, le_of_eq hA.2⟩
  case closedEvent t =>
    simp only [gen_step]
    split_ifs with hM
    · simpa [genResultMachine] using ⟨hInv, ht⟩
    · have hA := gen_after_inv slo hslo m (Event.closedEvent t)
        (some PrState.CLOSED) hInv ht
      simpa [genResultMachine] using ⟨hA.1, le_of_eq hA.2⟩
  all_goals (
    simp only [gen_step]
    rcases hr : update_reviewer_states m.core _ with c1 | c1 <;>
      simp only [genResultMachine]
    · have hc1 : c1 = m.core := update_reviewer_states_error _ _ _ hr
      subst hc1
      exact ⟨hInv, ht⟩
    · obtain ⟨f1, f2, f3, f4, f5, f6, f7⟩ := update_reviewer_states_ok_fields _ _ _ hr
      have hI : MInv { m with core := c1 } :=
        ⟨hInv.1, by rw [show ({ m with core := c1 } : MMachine).core = c1 from rfl, f3]
                    exact hInv.2.1,
         by rw [show ({ m with core := c1 } : MMachine).core = c1 from rfl, f5, f6]
            exact hInv.2.2⟩
      have hA := gen_after_inv slo hslo { m with core := c1 } _ none hI
        (by rw [show ({ m with core := c1 } : MMachine).core = c1 from rfl, f5]
            exact ht)
      exact ⟨hA.1, le_of_eq hA.2⟩)

end ProjectStatus

namespace ProjectStatus

/-- The whole event loop preserves the invariant (also on the machine
carried out of a raise) and keeps `last_event_time` at or below the
wrap-up instant. -/
theorem gen_events_inv (slo : Int) (hslo : 0 ≤ slo) (nowT : Int) :
    ∀ (es : List Event) (m : MMachine), MInv m →
    timesOrderedb m.core.last_event_time (es ++ [Event.created nowT]) = true →
    MInv (genResultMachine (gen_events slo m es))
    ∧ (genResultMachine (gen_events slo m es)).core.last_event_time ≤ nowT := by
  intro es
  induction es with
  | nil =>
    intro m hInv hord
    refine ⟨by simpa [gen_events, genResultMachine] using hInv, ?_⟩
    have := timesOrderedb_last m.core.last_event_time nowT [] hord
    simpa [gen_events, genResultMachine] using this
  | cons e rest ih =>
    intro m hInv hord
    simp only [List.cons_append, timesOrderedb, Bool.and_eq_true,
      decide_eq_true_eq] at hord
    have hstep := gen_step_inv slo hslo m e hInv hord.1
    simp only [gen_events]
    rcases hs : gen_step slo m e with m1 | m1 <;> rw [hs] at hstep <;>
      simp only [genResultMachine] at hstep
    · simp only [genResultMachine]
      refine ⟨hstep.1, ?_⟩
      calc m1.core.last_event_time ≤ e.created_at := hstep.2
        _ ≤ nowT := timesOrderedb_last e.created_at nowT rest hord.2
    · exact ih m1 hstep.1
        (timesOrderedb_mono m1.core.last_event_time e.created_at _ hstep.2 hord.2)

/-- Wrap-up preserves the out-of-SLO bounds: it only ever adds a
nonnegative duration to one of the totals and never touches the
accumulator. -/
theorem gen_wrap_up_inv (nowT : Int) (m : MMachine) (hInv : MInv m)
    (hle : m.core.last_event_time ≤ nowT) :
    0 ≤ (gen_wrap_up nowT m).out_of_slo_under_review_duration
    ∧ (gen_wrap_up nowT m).out_of_slo_under_review_duration
        ≤ (gen_wrap_up nowT m).core.total_under_review_duration := by
  obtain ⟨h0, h1, h2⟩ := hInv
  have hlsc : m.core.last_state_change_time ≤ nowT := le_trans h2 hle
  simp only [gen_wrap_up, wrap_up]
  split_ifs <;> constructor <;> (try simp) <;> omega

/-- Claim C6: out-of-SLO bounds.  For every machine construction, every
timestamp-ordered event list (with the wrap-up instant no earlier than any
event) and every nonnegative SLO threshold, after the whole
`generate_pr_summary` state-machine run (events plus wrap-up, or up to a
raise) the modelled accumulator satisfies
`0 ≤ out_of_slo_under_review ≤ total_under_review`; it is accumulated only
on transitions out of `UNDER_REVIEW`, by
`max(0, duration − SLO)` reduced by the post-`finish_time` carve-out
(`out_of_slo_increment`), each increment being between 0 and the duration
added to `total_under_review`. -/
theorem C6_out_of_slo_bounds (slo create_time : Int) (la : Option Int)
    (es : List Event) (nowT : Int) (hslo : 0 ≤ slo)
    (hord : timesOrderedb (initMMachine create_time la).core.last_event_time
        (es ++ [Event.created nowT]) = true) :
    0 ≤ (genResultMachine (gen_process slo create_time la es nowT)).out_of_slo_under_review_duration
    ∧ (genResultMachine (gen_process slo create_time la es nowT)).out_of_slo_under_review_duration
      ≤ (genResultMachine (gen_process slo create_time la es nowT)).core.total_under_review_duration := by
  have hInv0 : MInv (initMMachine create_time la) :=
    ⟨le_refl 0, le_refl 0, le_refl _⟩
  have hmain := gen_events_inv slo hslo nowT es (initMMachine create_time la)
    hInv0 hord
  simp only [gen_process]
  rcases hg : gen_events slo (initMMachine create_time la) es with m1 | m1 <;>
    rw [hg] at hmain <;> simp only [genResultMachine] at hmain
  · simp only [genResultMachine]
    exact ⟨hmain.1.1, hmain.1.2.1⟩
  · simp only [genResultMachine]
    exact gen_wrap_up_inv nowT m1 hmain.1 hmain.2

/-- Witness for C6 on a concrete out-of-SLO review: request at 3600,
changes requested at 349200 (a 4-day review against a 3-day SLO, putting
86400 seconds out of SLO), wrap-up at 400000. -/
theorem C6_witness :
    (0 : Int) ≤ 259200
    ∧ timesOrderedb (initMMachine 0 none).core.last_event_time
        ([Event.reviewRequested 3600 "patrickkwang",
          Event.review 349200 "patrickkwang" "CHANGES_REQUESTED"] ++ [Event.created 400000])
        = true
    ∧ (0 ≤ (genResultMachine (gen_process 259200 0 none
          [Event.reviewRequested 3600 "patrickkwang",
           Event.review 349200 "patrickkwang" "CHANGES_REQUESTED"] 400000)).out_of_slo_under_review_duration
      ∧ (genResultMachine (gen_process 259200 0 none
          [Event.reviewRequested 3600 "patrickkwang",
           Event.review 349200 "patrickkwang" "CHANGES_REQUESTED"] 400000)).out_of_slo_under_review_duration
        ≤ (genResultMachine (gen_process 259200 0 none
          [Event.reviewRequested 3600 "patrickkwang",
           Event.review 349200 "patrickkwang" "CHANGES_REQUESTED"] 400000)).core.total_under_review_duration) :=
  ⟨by decide, by decide,
   C6_out_of_slo_bounds 259200 0 none
     [Event.reviewRequested 3600 "patrickkwang",
      Event.review 349200 "patrickkwang" "CHANGES_REQUESTED"] 400000
     (by decide) (by decide)⟩

end ProjectStatus

namespace ProjectStatus

example :  -- the C6 witness scenario really accumulates a nonzero out-of-SLO excess
    (genResultMachine (gen_process 259200 0 none
      [Event.reviewRequested 3600 "patrickkwang",
       Event.review 349200 "patrickkwang" "CHANGES_REQUESTED"] 400000)).out_of_slo_under_review_duration
      = 86400 := by
  decide

end ProjectStatus
